import Mathlib

/-!
Verification of the market-data capture pipeline: the rotating JSONL writer
(`rotating_jsonl_writer.py`), the Binance depth-stream adapter
(`record_binance_depth.py`) and the offline normalization pass
(`normalize_l2.py`), embedded shallowly.  File contents are modelled as the
ordered list of payload chunks written to them (byte concatenation becomes
list append); wall-clock times are modelled in integer milliseconds, so the
flush interval `FLUSH_INTERVAL_SEC = 0.5` becomes 500 ms.
-/

namespace RotWriter

/-- `BATCH_SIZE = 2000` from `rotating_jsonl_writer.py`. -/
def BATCH_SIZE : Nat := 2000

/-- `FLUSH_INTERVAL_SEC = 0.5` seconds, expressed in milliseconds. -/
def FLUSH_INTERVAL_MS : Int := 500

/-- `WriteItem(bucket, line)`; the payload type is abstract. -/
structure WriteItem (α : Type) where
  bucket : Nat
  line : α
deriving DecidableEq

/-- The file system visible to the writer: full path name to file content. -/
abbrev FS (α : Type) := String → Option (List α)

/-- Write (create or replace) one file-system entry. -/
def FS.set {α : Type} (fs : FS α) (k : String) (v : Option (List α)) : FS α :=
  fun n => if n = k then v else fs n

/-- The writer state of `RotatingJSONLWriter.__init__`, together with the
file system its handle and renames act on.  `fpOpen` models whether
`self.fp` is a live handle; the handle itself is the entry of `fs` at
`tmp_path`. -/
structure RotatingJSONLWriter (α : Type) where
  out_dir : String
  filename_fn : Nat → String
  current_bucket : Option Nat
  fpOpen : Bool
  tmp_path : Option String
  final_path : Option String
  buffer : List α
  last_flush : Int
  fs : FS α

/-- `RotatingJSONLWriter(out_dir, filename_fn=...)` at start time `t0` over
file system `fs0`. -/
def mkWriter {α : Type} (out_dir : String) (filename_fn : Nat → String)
    (t0 : Int) (fs0 : FS α) : RotatingJSONLWriter α :=
  { out_dir := out_dir, filename_fn := filename_fn, current_bucket := none,
    fpOpen := false, tmp_path := none, final_path := none, buffer := [],
    last_flush := t0, fs := fs0 }

/-- `self.fp.write(b"".join(chunks))`: append the chunks to the open tmp
file.  (In every reachable open state `tmp_path` is set.) -/
def fpWrite {α : Type} (s : RotatingJSONLWriter α) (chunks : List α) :
    RotatingJSONLWriter α :=
  match s.tmp_path with
  | some tp => { s with fs := s.fs.set tp (some ((s.fs tp).getD [] ++ chunks)) }
  | none => s

/-- `RotatingJSONLWriter._close_and_finalize`: if a file is open, write any
pending buffer to the tmp file, close the handle, and rename
`tmp_path → final_path` (`Path.replace` overwrites an existing target). -/
def close_and_finalize {α : Type} (s : RotatingJSONLWriter α) :
    RotatingJSONLWriter α :=
  if s.fpOpen = false then s
  else
    let s1 := if s.buffer.isEmpty then s else { fpWrite s s.buffer with buffer := [] }
    let s2 :=
      match s1.tmp_path, s1.final_path with
      | some tp, some f => { s1 with fs := ((s1.fs).set f (s1.fs tp)).set tp none }
      | _, _ => s1
    { s2 with fpOpen := false, current_bucket := none,
              tmp_path := none, final_path := none }

/-- `RotatingJSONLWriter._open_for_bucket`: derive the final and tmp paths
from `filename_fn`, open the tmp path in append mode (keeping any existing
tmp content, creating the file otherwise) and reset `last_flush`. -/
def open_for_bucket {α : Type} (now : Int) (bucket : Nat)
    (s : RotatingJSONLWriter α) : RotatingJSONLWriter α :=
  let name := s.filename_fn bucket
  let fpath := s.out_dir ++ "/" ++ name
  let tpath := s.out_dir ++ "/" ++ name ++ ".tmp"
  { s with final_path := some fpath, tmp_path := some tpath,
           fs := s.fs.set tpath (some ((s.fs tpath).getD [])),
           fpOpen := true, current_bucket := some bucket, last_flush := now }

/-- `RotatingJSONLWriter.write`: rotate when the bucket changes, append the
line to the pending buffer, and flush when the batch-size or flush-interval
threshold is reached. -/
def write {α : Type} (now : Int) (item : WriteItem α)
    (s : RotatingJSONLWriter α) : RotatingJSONLWriter α :=
  let s :=
    if s.current_bucket = some item.bucket then s
    else open_for_bucket now item.bucket (close_and_finalize s)
  let s := { s with buffer := s.buffer ++ [item.line] }
  if BATCH_SIZE ≤ s.buffer.length ∨ FLUSH_INTERVAL_MS ≤ now - s.last_flush then
    { fpWrite s s.buffer with buffer := [], last_flush := now }
  else s

/-- `RotatingJSONLWriter.close`. -/
def close {α : Type} (s : RotatingJSONLWriter α) : RotatingJSONLWriter α :=
  close_and_finalize s

/-- Feed a sequence of timestamped items through `write`. -/
def runWrites {α : Type} (s : RotatingJSONLWriter α)
    (items : List (Int × WriteItem α)) : RotatingJSONLWriter α :=
  items.foldl (fun s it => write it.1 it.2 s) s

end RotWriter

namespace Binance

/-- `WRITE_QUEUE_MAX = 500_000` from `record_binance_depth.py`. -/
def WRITE_QUEUE_MAX : Nat := 500000

/-- `minute_bucket(ts_ns) = (ts_ns // 1_000_000_000) // 60`. -/
def minute_bucket (ts_ns : Nat) : Nat := ts_ns / 1000000000 / 60

/-- `minute_filename(bucket) = f"deltas_utcmin_\x7bbucket\x7d.jsonl"`. -/
def minute_filename (bucket : Nat) : String :=
  "deltas_utcmin_" ++ toString bucket ++ ".jsonl"

/-- A scalar inside a decoded JSON array: integer, boolean, string, or any
other shape.  JSON nesting is modelled only to the depth the code inspects. -/
inductive JAtom where
  | aint (i : Int)
  | abool (b : Bool)
  | astr (s : String)
  | aother
deriving DecidableEq

/-- An element of a decoded JSON array: a scalar, a nested array of scalars
(the `[price, quantity]` level entries), or any other shape. -/
inductive JItem where
  | atom (a : JAtom)
  | arr (l : List JAtom)
  | other
deriving DecidableEq

/-- A decoded JSON value, with just the shape distinctions the code tests:
integers, booleans (a Python `bool` is an `int`), strings, lists, and a
catch-all for every other decoded shape (dicts, floats, null). -/
inductive JVal where
  | jint (i : Int)
  | jbool (b : Bool)
  | jstr (s : String)
  | jlist (l : List JItem)
  | jobj
deriving DecidableEq

/-- A decoded JSON object: association list from keys to values. -/
abbrev RawMsg := List (String × JVal)

/-- `k in msg`. -/
def hasKey (m : RawMsg) (k : String) : Bool := (m.lookup k).isSome

/-- `isinstance(v, int)` — Python booleans are instances of `int`. -/
def isInt : JVal → Bool
  | .jint _ => true
  | .jbool _ => true
  | _ => false

/-- `isinstance(v, list)`. -/
def isList : JVal → Bool
  | .jlist _ => true
  | _ => false

/-- `msg[k]` for a key known to be present (defaults are never taken after a
successful `validate_depth_msg`). -/
def getJ (m : RawMsg) (k : String) : JVal := (m.lookup k).getD .jobj

/-- The integer value of a JSON int (Python `True == 1`, `False == 0`). -/
def asInt : JVal → Int
  | .jint i => i
  | .jbool b => if b then 1 else 0
  | _ => 0

/-- The list value of a JSON list. -/
def asList : JVal → List JItem
  | .jlist l => l
  | _ => []

/-- `validate_depth_msg`: raises `ValueError` (modelled as `.error`) on the
first missing required key, a wrong event type, or a mistyped field. -/
def validate_depth_msg (msg : RawMsg) : Except String Unit :=
  match (["e", "E", "s", "U", "u", "b", "a"].find? fun k => !(hasKey msg k)) with
  | some k => .error ("Missing key " ++ k)
  | none =>
    if msg.lookup "e" ≠ some (.jstr "depthUpdate") then
      .error "Unexpected event type"
    else if !(isInt (getJ msg "E")) then
      .error "E must be int (event time ms)"
    else if !(isInt (getJ msg "U") && isInt (getJ msg "u")) then
      .error "U/u must be int update IDs"
    else if !(isList (getJ msg "b") && isList (getJ msg "a")) then
      .error "b/a must be lists"
    else .ok ()

/-- The record dict built in `record_binance_depth` after validation. -/
structure DepthRecord where
  exchange : String
  symbol : String
  conn_id : Nat
  recv_ts_ns : Nat
  event_ts_ms : Int
  U : Int
  u : Int
  b : List JItem
  a : List JItem
deriving DecidableEq

/-- `record = {"exchange": "binance", ..., "a": msg["a"]}`. -/
def build_record (symbol : String) (conn_id : Nat) (recv_ts : Nat)
    (msg : RawMsg) : DepthRecord :=
  { exchange := "binance", symbol := symbol, conn_id := conn_id,
    recv_ts_ns := recv_ts, event_ts_ms := asInt (getJ msg "E"),
    U := asInt (getJ msg "U"), u := asInt (getJ msg "u"),
    b := asList (getJ msg "b"), a := asList (getJ msg "a") }

/-- `asyncio.Queue.put_nowait` on a queue with `maxsize`: raises `QueueFull`
(modelled as `.error`) when the queue already holds `maxsize` items,
otherwise appends; it never suspends. -/
def put_nowait {β : Type} (maxsize : Nat) (q : List β) (x : β) :
    Except Unit (List β) :=
  if maxsize ≤ q.length then .error () else .ok (q ++ [x])

/-- The connection-loop state of `record_binance_depth`: the backoff delay in
seconds (all values reached are dyadic, so `ℚ` models the float exactly),
the connection counter, whether a connection is live, and the write queue. -/
structure ConsState where
  backoff : ℚ
  conn_id : Nat
  connected : Bool
  queue : List (RotWriter.WriteItem DepthRecord)

/-- The state at the top of `record_binance_depth`'s loop:
`backoff = 0.25`, `conn_id = 0`, an empty queue, no connection yet. -/
def initCons : ConsState :=
  { backoff := 1/4, conn_id := 0, connected := false, queue := [] }

/-- `max_backoff = 10.0`. -/
def max_backoff : ℚ := 10

/-- The `except Exception` branch: sleep for the current backoff (the emitted
delay), double it up to `max_backoff`, and drop back to reconnecting. -/
def conn_failure (s : ConsState) : ConsState × Option ℚ :=
  ({ s with connected := false, backoff := min max_backoff (s.backoff * 2) },
   some s.backoff)

/-- Events driving one connection loop iteration: a successful
`websockets.connect`, one received message with its receipt timestamp, or a
network error. -/
inductive Ev where
  | connOk
  | recv (msg : RawMsg) (ts : Nat)
  | netFail

/-- Whether an event is a successful connect. -/
def isConnOk : Ev → Bool
  | .connOk => true
  | _ => false

/-- One transition of `record_binance_depth`'s loop.  Returns the next state
and the backoff delay slept through, when the iteration failed.  On a
successful connect, `conn_id` is incremented and the backoff reset
(lines 115–116).  On a received message: timestamp, validate, build the
record, compute its bucket and `put_nowait` it; a validation `ValueError`
or a `QueueFull`-triggered `RuntimeError` both land in the
`except Exception` branch. -/
def step (symbol : String) (s : ConsState) (e : Ev) : ConsState × Option ℚ :=
  match e with
  | .connOk =>
      ({ s with conn_id := s.conn_id + 1, backoff := 1/4, connected := true },
       none)
  | .netFail => conn_failure s
  | .recv msg ts =>
      if s.connected = false then (s, none)
      else
        match validate_depth_msg msg with
        | .error _ => conn_failure s
        | .ok _ =>
            let record := build_record symbol s.conn_id ts msg
            match put_nowait WRITE_QUEUE_MAX s.queue
                ⟨minute_bucket ts, record⟩ with
            | .ok q => ({ s with queue := q }, none)
            | .error _ => conn_failure s

/-- Run the loop over an event trace, collecting the emitted backoff delays
in order. -/
def runCons (symbol : String) : ConsState → List Ev → ConsState × List ℚ
  | s, [] => (s, [])
  | s, e :: es =>
      let p := step symbol s e
      let r := runCons symbol p.1 es
      (r.1, p.2.toList ++ r.2)

end Binance

namespace NormL2

open Binance

/-- `firstGap` contents recorded by the audit
(`{"prev_u": ..., "U": ..., "u": ..., "line": ...}`). -/
structure Gap where
  prev_u : Option Int
  U : Int
  u : Int
  line : Nat
deriving DecidableEq

/-- Modelled from the spec: `src.validation.audit.Audit` is imported by
`normalize_l2.py` but its module is not under `src/`.  Fields and initial
values are the ones `process_raw_dir` mutates and §3's AuditRecord lists:
counters start at zero, `continuity_ok` starts true, `first_gap` unset. -/
structure Audit where
  raw_lines : Nat := 0
  bad_json : Nat := 0
  skipped_schema : Nat := 0
  normalize_errors : Nat := 0
  kept_lines : Nat := 0
  continuity_ok : Bool := true
  gaps : Nat := 0
  first_gap : Option Gap := none
deriving DecidableEq

/-- Modelled from the spec: `src.validation.continuity.continuity_ok` is not
under `src/`.  §4.5: "A delta is continuous if `prevLastUpdateId` is unset
(first delta in the sequence) or if the new delta's
`firstUpdateId ≤ prevLastUpdateId + 1 ≤ lastUpdateId`". -/
def continuity_ok (prev_u : Option Int) (U u : Int) : Bool :=
  match prev_u with
  | none => true
  | some p => decide (U ≤ p + 1) && decide (p + 1 ≤ u)

/-- One line of a raw file, as seen after `orjson.loads`: either a line the
parser rejects, or a decoded JSON object. -/
inductive RawLine where
  | badJson
  | parsed (m : RawMsg)
deriving DecidableEq

/-- Modelled from the spec: `src.core.schemas.l2_delta.is_depth_delta` is not
under `src/`.  §4.1/§6: confirm presence of all fields of the raw record
schema `{exchange, symbol, conn_id, recv_ts_ns, event_ts_ms, U, u, b, a}`
with their primitive shapes. -/
def is_depth_delta (m : RawMsg) : Bool :=
  (match m.lookup "exchange" with | some (.jstr _) => true | _ => false) &&
  (match m.lookup "symbol" with | some (.jstr _) => true | _ => false) &&
  isInt (getJ m "conn_id") && hasKey m "conn_id" &&
  isInt (getJ m "recv_ts_ns") && hasKey m "recv_ts_ns" &&
  isInt (getJ m "event_ts_ms") && hasKey m "event_ts_ms" &&
  isInt (getJ m "U") && hasKey m "U" &&
  isInt (getJ m "u") && hasKey m "u" &&
  isList (getJ m "b") && hasKey m "b" &&
  isList (getJ m "a") && hasKey m "a"

/-- A level entry `[price, quantity]` parsed into its pair. -/
def parseLevel : JItem → Option (JAtom × JAtom)
  | .arr [p, q] => some (p, q)
  | _ => none

/-- The normalized record: the update-id range the continuity check reads
(`d["U"]`, `d["u"]`), the parsed levels, and the rest of the record. -/
structure NormDelta where
  U : Int
  u : Int
  bids : List (JAtom × JAtom)
  asks : List (JAtom × JAtom)
  body : RawMsg
deriving DecidableEq

/-- Modelled from the spec: `src.core.schemas.l2_delta.normalize_delta` is
not under `src/`.  It normalizes the record shape — integer update ids and
per-level `[price, quantity]` pairs — and raises (modelled as `none`) on a
malformed level entry. -/
def normalize_delta (m : RawMsg) : Option NormDelta :=
  match m.lookup "U", m.lookup "u" with
  | some (.jint U), some (.jint u) =>
      match (asList (getJ m "b")).mapM parseLevel,
            (asList (getJ m "a")).mapM parseLevel with
      | some bids, some asks => some ⟨U, u, bids, asks, m⟩
      | _, _ => none
  | _, _ => none

/-- The per-file processing state of `process_raw_dir`'s inner loop: the
audit being built, the continuity anchor `prev_u`, and the lines written to
the normalized file so far. -/
structure NState where
  audit : Audit
  prev_u : Option Int
  out : List NormDelta
deriving DecidableEq

/-- State at the start of a file: `Audit()`, `prev_u = None`, empty output. -/
def init_nstate : NState := ⟨{}, none, []⟩

/-- One iteration of `for line in fin` (lines 42–78 of `normalize_l2.py`). -/
def process_line (st : NState) (ln : RawLine) : NState :=
  let audit := { st.audit with raw_lines := st.audit.raw_lines + 1 }
  match ln with
  | .badJson => { st with audit := { audit with bad_json := audit.bad_json + 1 } }
  | .parsed m =>
      if is_depth_delta m = false then
        { st with audit := { audit with skipped_schema := audit.skipped_schema + 1 } }
      else
        match normalize_delta m with
        | none =>
            { st with audit := { audit with normalize_errors := audit.normalize_errors + 1 } }
        | some d =>
            let audit := { audit with kept_lines := audit.kept_lines + 1 }
            if continuity_ok st.prev_u d.U d.u = false then
              let audit :=
                { audit with
                  continuity_ok := false
                  gaps := audit.gaps + 1
                  first_gap :=
                    match audit.first_gap with
                    | none => some ⟨st.prev_u, d.U, d.u, audit.raw_lines⟩
                    | some g => some g }
              { audit := audit, prev_u := none, out := st.out ++ [d] }
            else
              { audit := audit, prev_u := some d.u, out := st.out ++ [d] }

/-- The whole per-file loop from an arbitrary starting state. -/
def process_from (st : NState) (lns : List RawLine) : NState :=
  lns.foldl process_line st

/-- Process one raw file's lines from the initial state. -/
def process_lines (lns : List RawLine) : NState := process_from init_nstate lns

/-- `f"\x7bstem\x7d.fp.jsonl"`. -/
def norm_name (stem : String) : String := stem ++ ".fp.jsonl"

/-- `f"\x7bstem\x7d.audit.json"`. -/
def audit_name (stem : String) : String := stem ++ ".audit.json"

/-- The output directories as maps from file name to content. -/
structure OutFS where
  norm : String → Option (List NormDelta)
  audit : String → Option Audit

/-- A raw input file: its stem and its decoded lines. -/
abbrev RawFile := String × List RawLine

/-- The body of `process_raw_dir`'s outer loop for one raw file: skip when
both outputs already exist, otherwise process the lines and write the
normalized file and the audit file. -/
def process_one (st : OutFS) (f : RawFile) : OutFS :=
  if (st.norm (norm_name f.1)).isSome ∧ (st.audit (audit_name f.1)).isSome then
    st
  else
    let r := process_lines f.2
    { norm := fun n => if n = norm_name f.1 then some r.out else st.norm n,
      audit := fun n => if n = audit_name f.1 then some r.audit else st.audit n }

/-- `process_raw_dir` over the sorted listing of raw files. -/
def process_raw_dir (st : OutFS) (files : List RawFile) : OutFS :=
  files.foldl process_one st

/-- A fully populated, schema-conforming raw line with update-id range
`[U, u]` (used by the concrete scenarios). -/
def delta_line (U u : Int) : RawLine :=
  .parsed [("exchange", .jstr "binance"), ("symbol", .jstr "BTCUSDT"),
    ("conn_id", .jint 1), ("recv_ts_ns", .jint 0), ("event_ts_ms", .jint 0),
    ("U", .jint U), ("u", .jint u), ("b", .jlist []), ("a", .jlist [])]

end NormL2

/-! Concrete runs used by the scenario claims and witnesses. -/

/-- The spec's bucket sequence `[100, 100, 101, 101, 100]` with payloads
1–5, all arriving at time 0 (so no flush-interval flush fires). -/
def c1_items : List (Int × RotWriter.WriteItem Nat) :=
  [(0, ⟨100, 1⟩), (0, ⟨100, 2⟩), (0, ⟨101, 3⟩), (0, ⟨101, 4⟩), (0, ⟨100, 5⟩)]

/-- The writer state just after the bucket has moved on to 101 — the
bucket-100 file is finalized at this point. -/
def c1_mid : RotWriter.RotatingJSONLWriter Nat :=
  RotWriter.runWrites
    (RotWriter.mkWriter "out" Binance.minute_filename 0 (fun _ => none))
    (c1_items.take 3)

/-- The writer state after the full sequence and `close()`. -/
def c1_run : RotWriter.RotatingJSONLWriter Nat :=
  RotWriter.close
    (RotWriter.runWrites
      (RotWriter.mkWriter "out" Binance.minute_filename 0 (fun _ => none))
      c1_items)

/-- An open writer state holding one pending payload, used to instantiate
the finalize theorem. -/
def c2_state : RotWriter.RotatingJSONLWriter Nat :=
  RotWriter.write 0 ⟨100, 7⟩
    (RotWriter.mkWriter "out" Binance.minute_filename 0 (fun _ => none))

/-- A schema-valid depth message whose update ids are in order. -/
def ok_msg : Binance.RawMsg :=
  [("e", .jstr "depthUpdate"), ("E", .jint 1), ("s", .jstr "BTCUSDT"),
   ("U", .jint 1), ("u", .jint 2), ("b", .jlist []), ("a", .jlist [])]

/-- A schema-valid depth message violating `U ≤ u` (`U = 10 > 5 = u`). -/
def c9_msg : Binance.RawMsg :=
  [("e", .jstr "depthUpdate"), ("E", .jint 1), ("s", .jstr "BTCUSDT"),
   ("U", .jint 10), ("u", .jint 5), ("b", .jlist []), ("a", .jlist [])]

/-- A connected consumer whose write queue is at capacity. -/
def c3_state : Binance.ConsState :=
  { backoff := 1/4, conn_id := 1, connected := true,
    queue := List.replicate Binance.WRITE_QUEUE_MAX
      ⟨0, Binance.build_record "BTCUSDT" 1 0 ok_msg⟩ }

/-- A connected consumer with an empty write queue. -/
def c8_state : Binance.ConsState :=
  { backoff := 1/4, conn_id := 1, connected := true, queue := [] }

/-- A writer on its current bucket whose pending buffer holds
`BATCH_SIZE - 1` items, so the next write reaches the batch threshold. -/
def c10_state : RotWriter.RotatingJSONLWriter Nat :=
  { out_dir := "out", filename_fn := Binance.minute_filename,
    current_bucket := some 5, fpOpen := true,
    tmp_path := some "out/deltas_utcmin_5.jsonl.tmp",
    final_path := some "out/deltas_utcmin_5.jsonl",
    buffer := List.replicate (RotWriter.BATCH_SIZE - 1) 0,
    last_flush := 0, fs := fun _ => none }

/-- The spec's continuity scenario: `(U,u)` pairs `(1,5), (6,10), (12,15)` —
the third delta opens a gap (`prevLastUpdateId = 10`, `firstUpdateId = 12 >
11`). -/
def c5_run : NormL2.NState :=
  NormL2.process_lines
    [NormL2.delta_line 1 5, NormL2.delta_line 6 10, NormL2.delta_line 12 15]

/-- The spec's malformed-JSON scenario: a 3-line raw file whose second line
does not parse. -/
def c7_run : NormL2.NState :=
  NormL2.process_lines
    [NormL2.delta_line 1 5, NormL2.RawLine.badJson, NormL2.delta_line 6 10]

/-- An output tree in which every normalized file and audit file already
exists. -/
def c6_full : NormL2.OutFS :=
  { norm := fun _ => some [], audit := fun _ => some {} }

/-- The normalizer state after the first two (continuous) deltas of the
continuity scenario: `prev_u = some 10`. -/
def c5_st : NormL2.NState :=
  NormL2.process_lines [NormL2.delta_line 1 5, NormL2.delta_line 6 10]

/-- The decoded object of the gap delta `(12, 15)`. -/
def c5_m : Binance.RawMsg :=
  [("exchange", .jstr "binance"), ("symbol", .jstr "BTCUSDT"),
   ("conn_id", .jint 1), ("recv_ts_ns", .jint 0), ("event_ts_ms", .jint 0),
   ("U", .jint 12), ("u", .jint 15), ("b", .jlist []), ("a", .jlist [])]

/-! Helper lemmas. -/

namespace RotWriter

theorem set_get_self {α : Type} (fs : FS α) (k : String) (v : Option (List α)) :
    FS.set fs k v k = v := by
  simp [FS.set]

theorem set_get_ne {α : Type} (fs : FS α) {k n : String} (v : Option (List α))
    (h : n ≠ k) : FS.set fs k v n = fs n := by
  simp [FS.set, h]

/-- The file system after `_close_and_finalize` on an open handle: the tmp
content followed by the pending buffer lands at the final path, and the tmp
path is gone. -/
theorem close_fin_fs {α : Type} (s : RotatingJSONLWriter α) (tp f : String)
    (content : List α) (hop : s.fpOpen = true) (ht : s.tmp_path = some tp)
    (hf : s.final_path = some f) (hc : s.fs tp = some content) :
    (close_and_finalize s).fs
      = FS.set (FS.set s.fs f (some (content ++ s.buffer))) tp none := by
  funext n
  cases hb : s.buffer with
  | nil =>
    simp [close_and_finalize, hop, hb, ht, hf, FS.set, hc]
  | cons x xs =>
    simp [close_and_finalize, hop, hb, ht, hf, fpWrite, FS.set, hc]
    by_cases h1 : n = tp <;> by_cases h2 : n = f <;> simp [h1, h2, hc]

theorem close_fin_buffer {α : Type} (s : RotatingJSONLWriter α)
    (hop : s.fpOpen = true) : (close_and_finalize s).buffer = [] := by
  cases hb : s.buffer with
  | nil =>
    cases hm : s.tmp_path <;> cases hm2 : s.final_path <;>
      simp [close_and_finalize, hop, hb, hm, hm2]
  | cons x xs =>
    cases hm : s.tmp_path <;> cases hm2 : s.final_path <;>
      simp [close_and_finalize, hop, hb, hm, hm2, fpWrite]

theorem close_fin_fpOpen {α : Type} (s : RotatingJSONLWriter α) :
    (close_and_finalize s).fpOpen = false := by
  by_cases hop : s.fpOpen = false
  · simp [close_and_finalize, hop]
  · cases hb : s.buffer <;> cases hm : s.tmp_path <;> cases hm2 : s.final_path <;>
      simp [close_and_finalize, hop, hb, hm, hm2, fpWrite]

end RotWriter

/-- Appending one item never leaves the pending buffer at or above
`BATCH_SIZE`: the same call flushes and clears it. -/
theorem RotWriter.write_buffer_lt {α : Type} (now : Int) (item : RotWriter.WriteItem α)
    (s : RotWriter.RotatingJSONLWriter α) :
    ((RotWriter.write now item s).buffer).length < RotWriter.BATCH_SIZE := by
  unfold RotWriter.write
  set s1 := if s.current_bucket = some item.bucket then s
    else RotWriter.open_for_bucket now item.bucket (RotWriter.close_and_finalize s) with hs1
  by_cases hcond : RotWriter.BATCH_SIZE ≤ (s1.buffer ++ [item.line]).length
      ∨ RotWriter.FLUSH_INTERVAL_MS ≤ now - s1.last_flush
  · simp only [hcond, if_true, RotWriter.fpWrite]
    cases h : ({ s1 with buffer := s1.buffer ++ [item.line] } :
        RotWriter.RotatingJSONLWriter α).tmp_path <;>
      simp [RotWriter.BATCH_SIZE]
  · simp only [hcond, if_false]
    rcases not_or.mp hcond with ⟨h1, _⟩
    simpa using Nat.lt_of_not_le h1

/-! Claim theorems. -/

/-- C1 (code bug): for the bucket sequence `[100, 100, 101, 101, 100]` the
first finalize does leave the bucket-100 file holding the first two
payloads, but the second visit to bucket 100 is NOT independent of it: its
finalize renames the new tmp file over the same final name
(`Path.replace` overwrites), so the finished run's bucket-100 file holds
only the fifth payload and the first two are silently lost — contradicting
the claimed no-item-lost concatenation property. -/
theorem c1_bucket_revisit_destroys_data :
    c1_mid.fs ("out/deltas_utcmin_100.jsonl") = some [1, 2]
    ∧ c1_run.fs ("out/deltas_utcmin_100.jsonl") = some [5]
    ∧ c1_run.fs ("out/deltas_utcmin_101.jsonl") = some [3, 4]
    ∧ (1 : Nat) ∉ (c1_run.fs ("out/deltas_utcmin_100.jsonl")).getD []
    ∧ (2 : Nat) ∉ (c1_run.fs ("out/deltas_utcmin_100.jsonl")).getD [] := by
  decide

/-- C2: finalizing an open file writes the pending buffer after the bytes
already on the tmp file, removes the tmp path, clears the buffer and closes
the handle, so the file at the final name holds every payload accepted for
the open bucket; no other path changes, and an in-bucket `write` only ever
touches the tmp path — content reaches the final name only through the
rename. -/
theorem c2_finalize_flushes_closes_renames {α : Type}
    (s : RotWriter.RotatingJSONLWriter α) (tp f : String) (content : List α)
    (hop : s.fpOpen = true) (ht : s.tmp_path = some tp)
    (hf : s.final_path = some f) (hc : s.fs tp = some content) (hne : tp ≠ f) :
    (RotWriter.close_and_finalize s).fs f = some (content ++ s.buffer)
    ∧ (RotWriter.close_and_finalize s).fs tp = none
    ∧ (RotWriter.close_and_finalize s).buffer = []
    ∧ (RotWriter.close_and_finalize s).fpOpen = false
    ∧ (∀ n, n ≠ tp → n ≠ f → (RotWriter.close_and_finalize s).fs n = s.fs n)
    ∧ (∀ (now : Int) (item : RotWriter.WriteItem α),
        s.current_bucket = some item.bucket →
          ((RotWriter.write now item s).fs tp).getD []
              ++ (RotWriter.write now item s).buffer
            = content ++ s.buffer ++ [item.line]
          ∧ (∀ n, n ≠ tp → (RotWriter.write now item s).fs n = s.fs n)) := by
  have hfs := RotWriter.close_fin_fs s tp f content hop ht hf hc
  refine ⟨?_, ?_, RotWriter.close_fin_buffer s hop, RotWriter.close_fin_fpOpen s,
    ?_, ?_⟩
  · rw [hfs, RotWriter.set_get_ne _ _ (Ne.symm hne), RotWriter.set_get_self]
  · rw [hfs, RotWriter.set_get_self]
  · intro n h1 h2
    rw [hfs, RotWriter.set_get_ne _ _ h1, RotWriter.set_get_ne _ _ h2]
  · intro now item hsame
    by_cases hcond : RotWriter.BATCH_SIZE ≤ s.buffer.length + 1
        ∨ RotWriter.FLUSH_INTERVAL_MS ≤ now - s.last_flush
    · constructor
      · simp [RotWriter.write, hsame, hcond, RotWriter.fpWrite, ht,
          RotWriter.FS.set, hc, List.append_assoc]
      · intro n h1
        simp [RotWriter.write, hsame, hcond, RotWriter.fpWrite, ht,
          RotWriter.FS.set, h1]
    · constructor
      · simp [RotWriter.write, hsame, hcond, hc, List.append_assoc]
      · intro n h1
        simp [RotWriter.write, hsame, hcond]

/-- C2 witness: a concrete open writer holding payload 7 for bucket 100. -/
theorem c2_finalize_witness :
    c2_state.fpOpen = true
    ∧ (RotWriter.close_and_finalize c2_state).fs ("out/deltas_utcmin_100.jsonl")
        = some ([] ++ c2_state.buffer) :=
  ⟨by decide,
   (c2_finalize_flushes_closes_renames c2_state
      ("out/deltas_utcmin_100.jsonl.tmp") ("out/deltas_utcmin_100.jsonl") []
      (by decide) (by decide) (by decide) (by decide) (by decide)).1⟩

/-- C10: after every call to `write` returns, the pending buffer holds
strictly fewer than `BATCH_SIZE` items; and whenever appending an item
brings the buffer to `BATCH_SIZE` (or the flush interval has elapsed), the
buffer is written out to the open tmp file and cleared within that call. -/
theorem c10_pending_buffer_bounded {α : Type} :
    (∀ (now : Int) (item : RotWriter.WriteItem α)
        (s : RotWriter.RotatingJSONLWriter α),
        ((RotWriter.write now item s).buffer).length < RotWriter.BATCH_SIZE)
    ∧ (∀ (now : Int) (item : RotWriter.WriteItem α)
        (s : RotWriter.RotatingJSONLWriter α) (tp : String),
        s.current_bucket = some item.bucket → s.tmp_path = some tp →
        (RotWriter.BATCH_SIZE ≤ s.buffer.length + 1
          ∨ RotWriter.FLUSH_INTERVAL_MS ≤ now - s.last_flush) →
        (RotWriter.write now item s).buffer = []
        ∧ (RotWriter.write now item s).fs tp
            = some ((s.fs tp).getD [] ++ (s.buffer ++ [item.line]))) := by
  refine ⟨RotWriter.write_buffer_lt, ?_⟩
  intro now item s tp hsame ht hcond
  constructor
  · simp [RotWriter.write, hsame, hcond, RotWriter.fpWrite, ht]
  · simp [RotWriter.write, hsame, hcond, RotWriter.fpWrite, ht, RotWriter.FS.set]

/-- C10 witness: a buffer of `BATCH_SIZE - 1` items reaches the threshold on
the next write and is flushed and cleared by that same call. -/
theorem c10_pending_buffer_witness :
    (RotWriter.BATCH_SIZE ≤ c10_state.buffer.length + 1
      ∨ RotWriter.FLUSH_INTERVAL_MS ≤ (0 : Int) - c10_state.last_flush)
    ∧ (RotWriter.write 0 ⟨5, 0⟩ c10_state).buffer = [] := by
  have h : RotWriter.BATCH_SIZE ≤ c10_state.buffer.length + 1
      ∨ RotWriter.FLUSH_INTERVAL_MS ≤ (0 : Int) - c10_state.last_flush :=
    Or.inl (by norm_num [c10_state, RotWriter.BATCH_SIZE])
  exact ⟨h, ((c10_pending_buffer_bounded (α := Nat)).2 0 ⟨5, 0⟩ c10_state
    ("out/deltas_utcmin_5.jsonl.tmp") rfl rfl h).1⟩

namespace Binance

/-- A full queue makes `put_nowait` fail. -/
theorem put_nowait_full {β : Type} (q : List β) (x : β)
    (h : q.length = WRITE_QUEUE_MAX) :
    put_nowait WRITE_QUEUE_MAX q x = .error () := by
  simp [put_nowait, h]

/-- Backoff doubling keeps the delay within `[1/4, max_backoff]`. -/
theorem backoff_double_bounds (b : ℚ) (h1 : 1/4 ≤ b) (h2 : b ≤ max_backoff) :
    1/4 ≤ min max_backoff (b * 2) ∧ min max_backoff (b * 2) ≤ max_backoff := by
  refine ⟨le_min (by norm_num [max_backoff]) (by linarith), min_le_left _ _⟩

/-- Any step leaves the backoff unchanged, resets it to `1/4`, or doubles it
with the cap; any emitted delay is the pre-step backoff. -/
theorem step_shape (symbol : String) (s : ConsState) (e : Ev) :
    ((step symbol s e).1.backoff = s.backoff
      ∨ (step symbol s e).1.backoff = 1/4
      ∨ (step symbol s e).1.backoff = min max_backoff (s.backoff * 2))
    ∧ ((step symbol s e).2 = none ∨ (step symbol s e).2 = some s.backoff) := by
  cases e with
  | connOk => exact ⟨Or.inr (Or.inl rfl), Or.inl rfl⟩
  | netFail => exact ⟨Or.inr (Or.inr rfl), Or.inr rfl⟩
  | recv msg ts =>
    by_cases hcn : s.connected = false
    · exact ⟨Or.inl (by simp [step, hcn]), Or.inl (by simp [step, hcn])⟩
    · cases hv : validate_depth_msg msg with
      | error err =>
        refine ⟨Or.inr (Or.inr ?_), Or.inr ?_⟩ <;>
          simp [step, hcn, hv, conn_failure]
      | ok u0 =>
        cases hp : put_nowait WRITE_QUEUE_MAX s.queue
            ⟨minute_bucket ts, build_record symbol s.conn_id ts msg⟩ with
        | error e2 =>
          refine ⟨Or.inr (Or.inr ?_), Or.inr ?_⟩ <;>
            simp [step, hcn, hv, hp, conn_failure]
        | ok q2 =>
          refine ⟨Or.inl ?_, Or.inl ?_⟩ <;> simp [step, hcn, hv, hp]

/-- One loop step keeps the backoff within `[1/4, max_backoff]`, and any
delay it emits is the pre-step backoff. -/
theorem step_backoff_bounds (symbol : String) (s : ConsState) (e : Ev)
    (h1 : 1/4 ≤ s.backoff) (h2 : s.backoff ≤ max_backoff) :
    (1/4 ≤ (step symbol s e).1.backoff
      ∧ (step symbol s e).1.backoff ≤ max_backoff)
    ∧ (∀ d, (step symbol s e).2 = some d → d = s.backoff) := by
  obtain ⟨hb, hd⟩ := step_shape symbol s e
  constructor
  · rcases hb with h | h | h
    · rw [h]; exact ⟨h1, h2⟩
    · rw [h]; exact ⟨le_refl _, by norm_num [max_backoff]⟩
    · rw [h]; exact backoff_double_bounds s.backoff h1 h2
  · intro d hdel
    rcases hd with h | h
    · rw [h] at hdel; cases hdel
    · rw [h] at hdel; exact (Option.some.inj hdel).symm

/-- Over a whole run the backoff stays within `[1/4, max_backoff]` and so
does every emitted delay. -/
theorem runCons_cons (symbol : String) (s : ConsState) (e : Ev)
    (es : List Ev) :
    runCons symbol s (e :: es)
      = ((runCons symbol (step symbol s e).1 es).1,
         (step symbol s e).2.toList
           ++ (runCons symbol (step symbol s e).1 es).2) := rfl

theorem runCons_backoff_bounds (symbol : String) (evs : List Ev)
    (s : ConsState) (h1 : 1/4 ≤ s.backoff) (h2 : s.backoff ≤ max_backoff) :
    (1/4 ≤ (runCons symbol s evs).1.backoff
      ∧ (runCons symbol s evs).1.backoff ≤ max_backoff)
    ∧ (∀ d ∈ (runCons symbol s evs).2, 1/4 ≤ d ∧ d ≤ max_backoff) := by
  induction evs generalizing s with
  | nil => exact ⟨⟨h1, h2⟩, by simp [runCons]⟩
  | cons e es ih =>
    have hst := step_backoff_bounds symbol s e h1 h2
    have ihs := ih (step symbol s e).1 hst.1.1 hst.1.2
    rw [runCons_cons]
    refine ⟨ihs.1, ?_⟩
    intro d hd
    rcases List.mem_append.mp hd with hd | hd
    · have hsome : (step symbol s e).2 = some d := by
        cases hopt : (step symbol s e).2 with
        | none => rw [hopt] at hd; simp at hd
        | some d2 =>
          rw [hopt] at hd
          simp at hd
          rw [hd]
      have hds := hst.2 d hsome
      subst hds
      exact ⟨h1, h2⟩
    · exact ihs.2 d hd

/-- One loop step adds one to `conn_id` exactly on a successful connect. -/
theorem step_conn_id (symbol : String) (s : ConsState) (e : Ev) :
    (step symbol s e).1.conn_id = s.conn_id + (if isConnOk e then 1 else 0) := by
  cases e with
  | connOk => simp [step, isConnOk]
  | netFail => simp [step, conn_failure, isConnOk]
  | recv msg ts =>
    by_cases hcn : s.connected = false
    · simp [step, hcn, isConnOk]
    · cases hv : validate_depth_msg msg with
      | error err => simp [step, hcn, hv, conn_failure, isConnOk]
      | ok unit =>
        cases hp : put_nowait WRITE_QUEUE_MAX s.queue
            ⟨minute_bucket ts, build_record symbol s.conn_id ts msg⟩ with
        | error e' => simp [step, hcn, hv, hp, conn_failure, isConnOk]
        | ok q' => simp [step, hcn, hv, hp, isConnOk]

/-- Over a run, `conn_id` grows by exactly the number of successful
connects. -/
theorem runCons_conn_id (symbol : String) (evs : List Ev) (s : ConsState) :
    (runCons symbol s evs).1.conn_id = s.conn_id + evs.countP isConnOk := by
  induction evs generalizing s with
  | nil => simp [runCons]
  | cons e es ih =>
    have := step_conn_id symbol s e
    simp [runCons, ih (step symbol s e).1, this, List.countP_cons]
    cases e <;> simp [isConnOk] <;> omega

end Binance

namespace Binance

/-- A full queue routes the received message into the failure branch. -/
theorem step_queue_full (symbol : String) (s : ConsState) (msg : RawMsg)
    (ts : Nat) (hconn : s.connected = true)
    (hfull : s.queue.length = WRITE_QUEUE_MAX)
    (hval : validate_depth_msg msg = .ok ()) :
    step symbol s (.recv msg ts) = conn_failure s := by
  have hcn : ¬ s.connected = false := by simp [hconn]
  have hpn := put_nowait_full s.queue
    (⟨minute_bucket ts, build_record symbol s.conn_id ts msg⟩ :
      RotWriter.WriteItem DepthRecord) hfull
  simp [step, hcn, hval, hpn]

/-- A queue with room enqueues the freshly built record at the tail. -/
theorem step_enqueues (symbol : String) (s : ConsState) (msg : RawMsg)
    (ts : Nat) (hconn : s.connected = true)
    (hval : validate_depth_msg msg = .ok ())
    (hroom : s.queue.length < WRITE_QUEUE_MAX) :
    step symbol s (.recv msg ts)
      = ({ s with queue := s.queue
            ++ [⟨minute_bucket ts, build_record symbol s.conn_id ts msg⟩] },
         none) := by
  have hcn : ¬ s.connected = false := by simp [hconn]
  have hpn : put_nowait WRITE_QUEUE_MAX s.queue
      (⟨minute_bucket ts, build_record symbol s.conn_id ts msg⟩ :
        RotWriter.WriteItem DepthRecord)
      = .ok (s.queue
          ++ [⟨minute_bucket ts, build_record symbol s.conn_id ts msg⟩]) := by
    simp [put_nowait, Nat.not_le.mpr hroom]
  simp [step, hcn, hval, hpn]

end Binance

/-- C3: with the write queue at its configured capacity, `put_nowait` fails
immediately (it is a total function, never a suspension) and the item is
not appended; the resulting `QueueFull`-driven `RuntimeError` is fatal to
the connection: the consumer leaves the connected state, emits its current
backoff delay, and doubles the backoff for the next attempt — the item is
surfaced as an error, never silently dropped. -/
theorem c3_queue_full_is_fatal (symbol : String) (s : Binance.ConsState)
    (msg : Binance.RawMsg) (ts : Nat)
    (hconn : s.connected = true)
    (hfull : s.queue.length = Binance.WRITE_QUEUE_MAX)
    (hval : Binance.validate_depth_msg msg = .ok ()) :
    (∀ (β : Type) (q : List β) (x : β), q.length = Binance.WRITE_QUEUE_MAX →
        Binance.put_nowait Binance.WRITE_QUEUE_MAX q x = .error ())
    ∧ (Binance.step symbol s (.recv msg ts)).1.queue = s.queue
    ∧ (Binance.step symbol s (.recv msg ts)).1.connected = false
    ∧ (Binance.step symbol s (.recv msg ts)).2 = some s.backoff
    ∧ (Binance.step symbol s (.recv msg ts)).1.backoff
        = min Binance.max_backoff (s.backoff * 2) := by
  have hse := Binance.step_queue_full symbol s msg ts hconn hfull hval
  refine ⟨fun β q x h => Binance.put_nowait_full q x h, ?_, ?_, ?_, ?_⟩ <;>
    simp [hse, Binance.conn_failure]

/-- C3 witness: a connected consumer with a full queue aborts the
connection and keeps the queue unchanged. -/
theorem c3_queue_full_witness :
    c3_state.queue.length = Binance.WRITE_QUEUE_MAX
    ∧ (Binance.step "BTCUSDT" c3_state (.recv ok_msg 0)).1.queue
        = c3_state.queue := by
  have hfull : c3_state.queue.length = Binance.WRITE_QUEUE_MAX := by
    simp [c3_state]
  exact ⟨hfull,
    (c3_queue_full_is_fatal "BTCUSDT" c3_state ok_msg 0 rfl hfull rfl).2.1⟩

/-- C4: the reconnect loop's backoff starts at 0.25 s; a successful connect
resets it to 0.25 s and increments `connectionId`; a failure sleeps for the
current backoff and doubles it with a 10 s cap; along every run from the
initial state the backoff and every slept delay stay within
`[0.25 s, 10 s]`, and `connectionId` equals the number of successful
connections so far — monotonically increasing over the process lifetime. -/
theorem c4_backoff_policy (symbol : String) :
    Binance.initCons.backoff = 1/4
    ∧ (∀ s, (Binance.step symbol s .connOk).1.backoff = 1/4
        ∧ (Binance.step symbol s .connOk).1.conn_id = s.conn_id + 1)
    ∧ (∀ s, (Binance.step symbol s .netFail).2 = some s.backoff
        ∧ (Binance.step symbol s .netFail).1.backoff
            = min Binance.max_backoff (s.backoff * 2))
    ∧ (∀ evs, 1/4 ≤ (Binance.runCons symbol Binance.initCons evs).1.backoff
        ∧ (Binance.runCons symbol Binance.initCons evs).1.backoff
            ≤ Binance.max_backoff)
    ∧ (∀ evs, ∀ d ∈ (Binance.runCons symbol Binance.initCons evs).2,
        1/4 ≤ d ∧ d ≤ Binance.max_backoff)
    ∧ (∀ s evs, (Binance.runCons symbol s evs).1.conn_id
        = s.conn_id + evs.countP Binance.isConnOk)
    ∧ (∀ s evs, s.conn_id ≤ (Binance.runCons symbol s evs).1.conn_id) := by
  have hinit1 : (1:ℚ)/4 ≤ Binance.initCons.backoff := le_refl _
  have hinit2 : Binance.initCons.backoff ≤ Binance.max_backoff := by
    norm_num [Binance.initCons, Binance.max_backoff]
  refine ⟨rfl, fun s => ⟨rfl, rfl⟩, fun s => ⟨rfl, rfl⟩, ?_, ?_, ?_, ?_⟩
  · exact fun evs =>
      (Binance.runCons_backoff_bounds symbol evs Binance.initCons hinit1 hinit2).1
  · exact fun evs =>
      (Binance.runCons_backoff_bounds symbol evs Binance.initCons hinit1 hinit2).2
  · exact fun s evs => Binance.runCons_conn_id symbol evs s
  · intro s evs
    rw [Binance.runCons_conn_id symbol evs s]
    exact Nat.le_add_right _ _

/-- C4 witness: a single failed iteration from the initial state sleeps for
exactly the minimum delay 0.25 s, which lies within the bounds. -/
theorem c4_backoff_witness :
    (1/4 : ℚ) ∈ (Binance.runCons "BTCUSDT" Binance.initCons [.netFail]).2
    ∧ ((1:ℚ)/4 ≤ 1/4 ∧ (1/4 : ℚ) ≤ Binance.max_backoff) := by
  have hmem : (1/4 : ℚ) ∈ (Binance.runCons "BTCUSDT" Binance.initCons [.netFail]).2 := by
    simp [Binance.runCons, Binance.step, Binance.conn_failure, Binance.initCons]
  exact ⟨hmem, (c4_backoff_policy "BTCUSDT").2.2.2.2.1 [.netFail] (1/4) hmem⟩

/-- C8: the bucket id is the integer number of whole minutes since the epoch
of the receipt timestamp (the code's two floor divisions equal a single
division by 60·10⁹ ns), the raw log file for bucket `b` is named exactly
`deltas_utcmin_<b>.jsonl`, and every record the consumer enqueues carries
the bucket computed from its own receipt timestamp. -/
theorem c8_bucket_and_filename :
    (∀ ts_ns : Nat, Binance.minute_bucket ts_ns = ts_ns / 60000000000)
    ∧ (∀ b : Nat, Binance.minute_filename b
        = "deltas_utcmin_" ++ toString b ++ ".jsonl")
    ∧ (∀ (symbol : String) (s : Binance.ConsState) (msg : Binance.RawMsg)
        (ts : Nat), s.connected = true →
        Binance.validate_depth_msg msg = .ok () →
        s.queue.length < Binance.WRITE_QUEUE_MAX →
        (Binance.step symbol s (.recv msg ts)).1.queue
          = s.queue ++ [⟨Binance.minute_bucket ts,
              Binance.build_record symbol s.conn_id ts msg⟩]) := by
  refine ⟨?_, fun b => rfl, ?_⟩
  · intro ts_ns
    unfold Binance.minute_bucket
    rw [Nat.div_div_eq_div_mul]
  · intro symbol s msg ts hconn hval hroom
    rw [Binance.step_enqueues symbol s msg ts hconn hval hroom]

/-- C8 witness: a connected consumer with room enqueues the record under the
bucket of its receipt timestamp. -/
theorem c8_bucket_witness :
    c8_state.connected = true
    ∧ (Binance.step "BTCUSDT" c8_state (.recv ok_msg 0)).1.queue
        = c8_state.queue ++ [⟨Binance.minute_bucket 0,
            Binance.build_record "BTCUSDT" c8_state.conn_id 0 ok_msg⟩] :=
  ⟨rfl, (c8_bucket_and_filename).2.2 "BTCUSDT" c8_state ok_msg 0 rfl rfl
    (by norm_num [c8_state, Binance.WRITE_QUEUE_MAX])⟩

/-- C9 (counterexample): a message with `U = 10 > 5 = u` passes
`validate_depth_msg` — the validator checks presence and primitive shapes
only, never the ordering — so the constructed record violates
`firstUpdateId ≤ lastUpdateId`. -/
theorem c9_validator_ignores_id_order :
    Binance.validate_depth_msg c9_msg = .ok ()
    ∧ (Binance.build_record "BTCUSDT" 1 0 c9_msg).U = 10
    ∧ (Binance.build_record "BTCUSDT" 1 0 c9_msg).u = 5
    ∧ ¬ ((Binance.build_record "BTCUSDT" 1 0 c9_msg).U
          ≤ (Binance.build_record "BTCUSDT" 1 0 c9_msg).u) :=
  ⟨rfl, rfl, rfl, by decide⟩

/-- C9 (amended): the record copies the validated message's `U` and `u`
verbatim, so an enqueued record satisfies `firstUpdateId ≤ lastUpdateId`
exactly when the exchange-reported ids of the validated message already
do. -/
theorem c9_record_preserves_ids (symbol : String) (conn_id : Nat)
    (recv_ts : Nat) (msg : Binance.RawMsg)
    (hval : Binance.validate_depth_msg msg = .ok ()) :
    ((Binance.build_record symbol conn_id recv_ts msg).U
        ≤ (Binance.build_record symbol conn_id recv_ts msg).u
      ↔ Binance.asInt (Binance.getJ msg "U")
          ≤ Binance.asInt (Binance.getJ msg "u"))
    ∧ (Binance.build_record symbol conn_id recv_ts msg).U
        = Binance.asInt (Binance.getJ msg "U")
    ∧ (Binance.build_record symbol conn_id recv_ts msg).u
        = Binance.asInt (Binance.getJ msg "u") :=
  ⟨Iff.rfl, rfl, rfl⟩

/-- C9 witness: a validated message with ordered ids. -/
theorem c9_record_witness :
    Binance.validate_depth_msg ok_msg = .ok ()
    ∧ ((Binance.build_record "BTCUSDT" 1 0 ok_msg).U
          ≤ (Binance.build_record "BTCUSDT" 1 0 ok_msg).u
        ↔ Binance.asInt (Binance.getJ ok_msg "U")
            ≤ Binance.asInt (Binance.getJ ok_msg "u")) :=
  ⟨rfl, (c9_record_preserves_ids "BTCUSDT" 1 0 ok_msg rfl).1⟩

namespace NormL2

/-- Every processed line increments `raw_lines` by one. -/
theorem pl_raw (st : NState) (ln : RawLine) :
    (process_line st ln).audit.raw_lines = st.audit.raw_lines + 1 := by
  cases ln with
  | badJson => rfl
  | parsed m =>
    by_cases hs : is_depth_delta m = false
    · simp [process_line, hs]
    · cases hn : normalize_delta m with
      | none => simp [process_line, hs, hn]
      | some d =>
        by_cases hc : continuity_ok st.prev_u d.U d.u = false
        · simp [process_line, hs, hn, hc]
        · simp [process_line, hs, hn, hc]

/-- Every processed line increments exactly one of the four outcome
counters. -/
theorem pl_sum (st : NState) (ln : RawLine) :
    (process_line st ln).audit.bad_json
      + (process_line st ln).audit.skipped_schema
      + (process_line st ln).audit.normalize_errors
      + (process_line st ln).audit.kept_lines
    = (st.audit.bad_json + st.audit.skipped_schema
        + st.audit.normalize_errors + st.audit.kept_lines) + 1 := by
  cases ln with
  | badJson => simp [process_line]; omega
  | parsed m =>
    by_cases hs : is_depth_delta m = false
    · simp [process_line, hs]; omega
    · cases hn : normalize_delta m with
      | none => simp [process_line, hs, hn]; omega
      | some d =>
        by_cases hc : continuity_ok st.prev_u d.U d.u = false
        · simp [process_line, hs, hn, hc]; omega
        · simp [process_line, hs, hn, hc]; omega

/-- A line adds to the normalized output exactly when it is kept. -/
theorem pl_out_kept (st : NState) (ln : RawLine)
    (h : st.out.length = st.audit.kept_lines) :
    (process_line st ln).out.length = (process_line st ln).audit.kept_lines := by
  cases ln with
  | badJson => simpa [process_line] using h
  | parsed m =>
    by_cases hs : is_depth_delta m = false
    · simpa [process_line, hs] using h
    · cases hn : normalize_delta m with
      | none => simpa [process_line, hs, hn] using h
      | some d =>
        by_cases hc : continuity_ok st.prev_u d.U d.u = false
        · simp [process_line, hs, hn, hc, h]
        · simp [process_line, hs, hn, hc, h]

theorem pf_raw (lns : List RawLine) (st : NState) :
    (process_from st lns).audit.raw_lines = st.audit.raw_lines + lns.length := by
  induction lns generalizing st with
  | nil => simp [process_from]
  | cons ln lns ih =>
    have : process_from st (ln :: lns) = process_from (process_line st ln) lns := rfl
    rw [this, ih, pl_raw]
    simp only [List.length_cons]
    omega

theorem pf_sum (lns : List RawLine) (st : NState) :
    (process_from st lns).audit.bad_json
      + (process_from st lns).audit.skipped_schema
      + (process_from st lns).audit.normalize_errors
      + (process_from st lns).audit.kept_lines
    = (st.audit.bad_json + st.audit.skipped_schema
        + st.audit.normalize_errors + st.audit.kept_lines) + lns.length := by
  induction lns generalizing st with
  | nil => simp [process_from]
  | cons ln lns ih =>
    have : process_from st (ln :: lns) = process_from (process_line st ln) lns := rfl
    rw [this, ih, pl_sum]
    simp only [List.length_cons]
    omega

theorem pf_out_kept (lns : List RawLine) (st : NState)
    (h : st.out.length = st.audit.kept_lines) :
    (process_from st lns).out.length = (process_from st lns).audit.kept_lines := by
  induction lns generalizing st with
  | nil => simpa [process_from] using h
  | cons ln lns ih =>
    have he : process_from st (ln :: lns) = process_from (process_line st ln) lns := rfl
    rw [he]
    exact ih (process_line st ln) (pl_out_kept st ln h)

end NormL2

/-- C7: every raw line bumps `rawLineCount`; a parse failure bumps
`badJsonCount` and writes nothing; a schema mismatch bumps
`schemaSkippedCount` and writes nothing; a normalization failure bumps
`normalizeErrorCount` and writes nothing; otherwise `keptLineCount` is
bumped and the normalized record is appended — so the four outcome counters
always sum to `rawLineCount`, the normalized file has `keptLineCount`
lines, and the 3-line file with malformed JSON on line 2 yields
`badJsonCount = 1`, `keptLineCount = 2` and a 2-line normalized file. -/
theorem c7_per_line_accounting :
    (∀ lns, (NormL2.process_lines lns).audit.raw_lines = lns.length)
    ∧ (∀ lns, (NormL2.process_lines lns).audit.bad_json
        + (NormL2.process_lines lns).audit.skipped_schema
        + (NormL2.process_lines lns).audit.normalize_errors
        + (NormL2.process_lines lns).audit.kept_lines
        = (NormL2.process_lines lns).audit.raw_lines)
    ∧ (∀ lns, (NormL2.process_lines lns).out.length
        = (NormL2.process_lines lns).audit.kept_lines)
    ∧ (∀ st, (NormL2.process_line st .badJson).audit.bad_json
          = st.audit.bad_json + 1
        ∧ (NormL2.process_line st .badJson).audit.raw_lines
          = st.audit.raw_lines + 1
        ∧ (NormL2.process_line st .badJson).out = st.out)
    ∧ (∀ st m, NormL2.is_depth_delta m = false →
        (NormL2.process_line st (.parsed m)).audit.skipped_schema
          = st.audit.skipped_schema + 1
        ∧ (NormL2.process_line st (.parsed m)).out = st.out)
    ∧ (∀ st m, NormL2.is_depth_delta m = true →
        NormL2.normalize_delta m = none →
        (NormL2.process_line st (.parsed m)).audit.normalize_errors
          = st.audit.normalize_errors + 1
        ∧ (NormL2.process_line st (.parsed m)).out = st.out)
    ∧ (∀ st m d, NormL2.is_depth_delta m = true →
        NormL2.normalize_delta m = some d →
        (NormL2.process_line st (.parsed m)).audit.kept_lines
          = st.audit.kept_lines + 1
        ∧ (NormL2.process_line st (.parsed m)).out = st.out ++ [d])
    ∧ (c7_run.audit.bad_json = 1 ∧ c7_run.audit.kept_lines = 2
        ∧ c7_run.out.length = 2 ∧ c7_run.audit.raw_lines = 3) := by
  refine ⟨?_, ?_, ?_, ?_, ?_, ?_, ?_, by decide⟩
  · intro lns
    rw [NormL2.process_lines, NormL2.pf_raw]
    exact Nat.zero_add _
  · intro lns
    rw [NormL2.process_lines, NormL2.pf_sum, NormL2.pf_raw]
    rfl
  · intro lns
    exact NormL2.pf_out_kept lns NormL2.init_nstate rfl
  · intro st
    refine ⟨rfl, rfl, rfl⟩
  · intro st m hs
    constructor <;> simp [NormL2.process_line, hs]
  · intro st m hs hn
    have hs' : ¬ NormL2.is_depth_delta m = false := by simp [hs]
    constructor <;> simp [NormL2.process_line, hs', hn]
  · intro st m d hs hn
    have hs' : ¬ NormL2.is_depth_delta m = false := by simp [hs]
    by_cases hc : NormL2.continuity_ok st.prev_u d.U d.u = false
    · constructor <;> simp [NormL2.process_line, hs', hn, hc]
    · constructor <;> simp [NormL2.process_line, hs', hn, hc]

/-- C7 witness: an empty decoded object fails the schema check and is
counted as skipped without being written. -/
theorem c7_per_line_witness :
    NormL2.is_depth_delta [] = false
    ∧ (NormL2.process_line NormL2.init_nstate (.parsed [])).audit.skipped_schema
        = NormL2.init_nstate.audit.skipped_schema + 1 :=
  ⟨by decide,
   (c7_per_line_accounting.2.2.2.2.1 NormL2.init_nstate [] (by decide)).1⟩

/-- C5 (counterexample): after the gap delta `(12, 15)` the code resets the
continuity anchor to unset (`prev_u = None`, line 74 of `normalize_l2.py`)
— it does NOT continue with `prevLastUpdateId` equal to the gap delta's
`lastUpdateId` as the claim states. -/
theorem c5_gap_anchor_counterexample :
    c5_run.prev_u = none
    ∧ c5_run.prev_u ≠ some 15
    ∧ c5_run.audit.gaps = 1
    ∧ c5_run.audit.first_gap = some ⟨some 10, 12, 15, 3⟩
    ∧ c5_run.audit.continuity_ok = false := by
  decide

/-- C5 (amended): a kept delta that fails the continuity check sets
`continuityOk` to false, increments `gapCount`, records `firstGap` (with
`prevLastUpdateId`, the delta's ids and the 1-based line number) only when
no gap was recorded before, and resets the continuity anchor to unset —
`prev_u = None`, so one gap does not flag every subsequent delta — while
still writing the delta; a sequence with exactly one discontinuity reports
exactly one `firstGap` and `gapCount ≥ 1`. -/
theorem c5_gap_handling (st : NormL2.NState) (m : Binance.RawMsg)
    (d : NormL2.NormDelta)
    (hs : NormL2.is_depth_delta m = true)
    (hn : NormL2.normalize_delta m = some d)
    (hg : NormL2.continuity_ok st.prev_u d.U d.u = false) :
    ((NormL2.process_line st (.parsed m)).audit.continuity_ok = false
      ∧ (NormL2.process_line st (.parsed m)).audit.gaps = st.audit.gaps + 1
      ∧ (NormL2.process_line st (.parsed m)).audit.first_gap
          = (match st.audit.first_gap with
             | none => some ⟨st.prev_u, d.U, d.u, st.audit.raw_lines + 1⟩
             | some g => some g)
      ∧ (NormL2.process_line st (.parsed m)).prev_u = none
      ∧ (NormL2.process_line st (.parsed m)).audit.kept_lines
          = st.audit.kept_lines + 1
      ∧ (NormL2.process_line st (.parsed m)).out = st.out ++ [d])
    ∧ (c5_run.audit.gaps = 1
        ∧ c5_run.audit.first_gap = some ⟨some 10, 12, 15, 3⟩
        ∧ c5_run.audit.continuity_ok = false
        ∧ c5_run.audit.kept_lines = 3) := by
  have hs' : ¬ NormL2.is_depth_delta m = false := by simp [hs]
  refine ⟨⟨?_, ?_, ?_, ?_, ?_, ?_⟩, by decide⟩ <;>
    cases hfg : st.audit.first_gap <;>
      simp [NormL2.process_line, hs', hn, hg, hfg]

/-- C5 witness: the gap delta `(12, 15)` after `(1,5), (6,10)` fails the
continuity check and leaves the anchor unset. -/
theorem c5_gap_witness :
    NormL2.continuity_ok c5_st.prev_u 12 15 = false
    ∧ (NormL2.process_line c5_st (.parsed c5_m)).prev_u = none :=
  ⟨by decide,
   (c5_gap_handling c5_st c5_m ⟨12, 15, [], [], c5_m⟩ (by decide) (by decide)
      (by decide)).1.2.2.2.1⟩

namespace NormL2

/-- Existing outputs make `process_one` skip the file. -/
theorem po_skip (st : OutFS) (f : RawFile)
    (h1 : (st.norm (norm_name f.1)).isSome = true)
    (h2 : (st.audit (audit_name f.1)).isSome = true) :
    process_one st f = st := by
  simp [process_one, h1, h2]

/-- After `process_one`, the file's two outputs exist. -/
theorem po_self (st : OutFS) (f : RawFile) :
    ((process_one st f).norm (norm_name f.1)).isSome = true
    ∧ ((process_one st f).audit (audit_name f.1)).isSome = true := by
  by_cases h : (st.norm (norm_name f.1)).isSome = true
      ∧ (st.audit (audit_name f.1)).isSome = true
  · rw [po_skip st f h.1 h.2]
    exact h
  · constructor <;> simp [process_one, h]

/-- `process_one` never deletes an existing normalized file. -/
theorem po_mono_norm (st : OutFS) (g : RawFile) (n : String)
    (h : (st.norm n).isSome = true) :
    ((process_one st g).norm n).isSome = true := by
  by_cases hc : (st.norm (norm_name g.1)).isSome = true
      ∧ (st.audit (audit_name g.1)).isSome = true
  · rw [po_skip st g hc.1 hc.2]; exact h
  · by_cases hn : n = norm_name g.1 <;> simp [process_one, hc, hn, h]

/-- `process_one` never deletes an existing audit file. -/
theorem po_mono_audit (st : OutFS) (g : RawFile) (n : String)
    (h : (st.audit n).isSome = true) :
    ((process_one st g).audit n).isSome = true := by
  by_cases hc : (st.norm (norm_name g.1)).isSome = true
      ∧ (st.audit (audit_name g.1)).isSome = true
  · rw [po_skip st g hc.1 hc.2]; exact h
  · by_cases hn : n = audit_name g.1 <;> simp [process_one, hc, hn, h]

/-- A whole pass never deletes existing outputs. -/
theorem prd_mono (files : List RawFile) (st : OutFS) (n : String) :
    ((st.norm n).isSome = true →
      ((process_raw_dir st files).norm n).isSome = true)
    ∧ ((st.audit n).isSome = true →
      ((process_raw_dir st files).audit n).isSome = true) := by
  induction files generalizing st with
  | nil => exact ⟨id, id⟩
  | cons f fs ih =>
    have he : process_raw_dir st (f :: fs) = process_raw_dir (process_one st f) fs := rfl
    rw [he]
    exact ⟨fun h => (ih (process_one st f)).1 (po_mono_norm st f n h),
      fun h => (ih (process_one st f)).2 (po_mono_audit st f n h)⟩

/-- After a whole pass, both outputs exist for every input file. -/
theorem prd_outputs (files : List RawFile) (st : OutFS) :
    ∀ f ∈ files, ((process_raw_dir st files).norm (norm_name f.1)).isSome = true
      ∧ ((process_raw_dir st files).audit (audit_name f.1)).isSome = true := by
  induction files generalizing st with
  | nil => intro f hf; cases hf
  | cons g gs ih =>
    intro f hf
    have he : process_raw_dir st (g :: gs) = process_raw_dir (process_one st g) gs := rfl
    rw [he]
    rcases List.mem_cons.mp hf with hf | hf
    · subst hf
      exact ⟨(prd_mono gs (process_one st f) _).1 (po_self st f).1,
        (prd_mono gs (process_one st f) _).2 (po_self st f).2⟩
    · exact ih (process_one st g) f hf

/-- A pass over files whose outputs all exist is the identity. -/
theorem prd_skip (files : List RawFile) (st : OutFS)
    (hall : ∀ f ∈ files, (st.norm (norm_name f.1)).isSome = true
      ∧ (st.audit (audit_name f.1)).isSome = true) :
    process_raw_dir st files = st := by
  induction files generalizing st with
  | nil => rfl
  | cons f fs ih =>
    have he : process_raw_dir st (f :: fs) = process_raw_dir (process_one st f) fs := rfl
    have hf := hall f (List.mem_cons_self f fs)
    rw [he, po_skip st f hf.1 hf.2]
    exact ih st fun g hg => hall g (List.mem_cons_of_mem f hg)

end NormL2

/-- C6: the normalization pass is idempotent — a raw file whose normalized
file and audit file both already exist is skipped entirely, so a second run
of the pass over the same directory changes nothing and writes no second
AuditRecord. -/
theorem c6_pass_idempotent :
    (∀ (st : NormL2.OutFS) (f : NormL2.RawFile),
        (st.norm (NormL2.norm_name f.1)).isSome = true →
        (st.audit (NormL2.audit_name f.1)).isSome = true →
        NormL2.process_one st f = st)
    ∧ (∀ (st : NormL2.OutFS) (files : List NormL2.RawFile),
        NormL2.process_raw_dir (NormL2.process_raw_dir st files) files
          = NormL2.process_raw_dir st files) := by
  refine ⟨NormL2.po_skip, ?_⟩
  intro st files
  exact NormL2.prd_skip files (NormL2.process_raw_dir st files)
    (NormL2.prd_outputs files st)

/-- C6 witness: with both outputs present, the file is skipped and the
output tree is untouched. -/
theorem c6_pass_witness :
    (c6_full.norm (NormL2.norm_name "deltas_utcmin_100")).isSome = true
    ∧ NormL2.process_one c6_full ("deltas_utcmin_100", []) = c6_full :=
  ⟨rfl, c6_pass_idempotent.1 c6_full ("deltas_utcmin_100", []) rfl rfl⟩
